import Mathlib

/-!
Verification development for the Magic: The Gathering tribal deck builder
(`DataStructure.py` / `ProjectCode.py`).

The Python code is shallowly embedded:

* a `Card` record mirrors the per-card dictionaries stored in `card_dict`
  (fields `colors`, `cmc`, `text`, `type`, `power`, `toughness`, `loyalty`,
  `id`, `name`);
* the card table `card_dict` is an insertion-ordered association list
  `List (String × Card)` (a Python `dict` iterated with `.items()`);
* `networkx.Graph` is embedded as insertion-ordered node and edge lists with
  `add_node` / `add_edge` reproducing the library behaviour used here
  (idempotent node insertion, no duplicate undirected edges, a self loop
  counting twice towards the degree);
* code that can raise an exception is embedded with an `Option` result:
  `none` stands for the exception escaping the modelled function
  (`TypeError` when `get_card_type` returns `None` to a caller that
  iterates it, `ValueError` from the tuple unpacking in `get_card_type`
  when a type line contains more than one " — " separator, and
  `ValueError` ("empty vocabulary") raised by scikit-learn
  `TfidfVectorizer.fit_transform` when the document list produces no
  token);
* the floating point similarity values of `linear_kernel` over the
  l2-normalised TF-IDF matrix are modelled over `ℝ` (`Real.log` in the
  smoothed inverse document frequency, `Real.sqrt` in the row norms);
  the comparisons performed on scores by `graph_construction` are modelled
  generically over a linear order.
-/

/-- One entry of `card_dict`: the per-card record built by
`CleanData.create_card_dict`.  `colors` is the card colors list, or
`["Colorless"]` when the source data had no colors; `text` is `none` when the
JSON field was `null`. -/
structure Card where
  colors : List String
  cmc : String
  text : Option String
  type : String
  power : Option String
  toughness : Option String
  loyalty : Option String
  id : Option Nat
  name : String
  deriving DecidableEq

/-- The module level `ABILITY_WORDS` list of `DataStructure.py`
(`ABILITY_WORDS_SET` is its set of elements; only membership is ever used). -/
def ABILITY_WORDS : List String :=
  ["AURA", "DEATHTOUCH", "DOUBLE STRIKE", "EQUIPMENT", "FIRST STRIKE",
   "FLYING", "HASTE", "LIFELINK", "REACH", "TRAMPLE", "To (TAP)",
   "ADDITIONAL COST", "AURA", "BASIC LAND", "COLOR", "COLORLESS",
   "COMBAT DAMAGE", "CONTROL", "CONTROLLER", "COST", "COUNTER",
   "A SPELL OR ABILITY", "COUNTER", "ON A PERMANENT", "DAMAGE", "DEATHTOUCH",
   "DEFENDER", "DESTROY", "DISCARD", "DOUBLE", "DOUBLE STRIKE", "ENCHANT",
   "ENTERS THE BATTLEFIELD", "EQUIPMENT", "EXILE", "FIRST STRIKE", "FLASH",
   "FLASHBACK", "FLYING", "GOAD", "HASTE", "HEXPROOF", "INDESTRUCTIBLE",
   "LEAVES THE BATTLEFIELD", "LEGENDARY", "LIFELINK", "MANA", "MANA ABILITY",
   "MANA VALUE", "MENACE", "MULLIGAN", "OPPONENT", "OWNER", "PERMANENT",
   "PLANESWALKER", "PLAYER", "PUT ONTO THE BATTLEFIELD", "REACH", "SACRIFICE",
   "SCRY", "SHUFFLE", "SOURCE", "SPELL", "TOKEN", "TRAMPLE", "VIGILANCE", "X"]

/-- Python `str.lower()` (ASCII): lower every character.  Implemented over the
character list so that it evaluates inside the kernel. -/
def strLower (s : String) : String := String.mk (s.data.map Char.toLower)

/-- Python `str.upper()` (ASCII): upper every character. -/
def strUpper (s : String) : String := String.mk (s.data.map Char.toUpper)

/-- Splitting a character list at every character satisfying `p`, keeping the
(possibly empty) pieces between the cut points. -/
def splitPAux (p : Char → Bool) : List Char → List Char → List (List Char)
  | [], acc => [acc.reverse]
  | c :: cs, acc =>
    if p c then acc.reverse :: splitPAux p cs [] else splitPAux p cs (c :: acc)

/-- Splitting a string at every character satisfying a predicate. -/
def splitP (p : Char → Bool) (s : String) : List String :=
  (splitPAux p s.data []).map String.mk

/-- Python `str.split(sep)` over character lists, for a non-empty separator:
cut at each leftmost non-overlapping occurrence of the separator.  The `Nat`
argument is structural-recursion fuel; one character is consumed per step, so
fuel equal to the list length (as passed by `pySplit`) never runs out. -/
def pySplitAux (sep : List Char) : Nat → List Char → List Char → List (List Char)
  | 0, rest, acc => [acc.reverse ++ rest]
  | _ + 1, [], acc => [acc.reverse]
  | fuel + 1, c :: cs, acc =>
    if sep.isPrefixOf (c :: cs) then
      acc.reverse :: pySplitAux sep fuel (List.drop (sep.length - 1) cs) []
    else pySplitAux sep fuel cs (c :: acc)

/-- Python `str.split(sep)` for a non-empty separator string. -/
def pySplit (s : String) (sep : String) : List String :=
  (pySplitAux sep.data s.data.length s.data []).map String.mk

/-- Python `str.split()` with no argument: split on whitespace runs, with no
empty piece. -/
def pySplitWs (s : String) : List String :=
  (splitP (fun c => c.isWhitespace) s).filter (fun w => w ≠ "")

/-- Python `sep.join(items)`. -/
def strIntercalate (sep : String) : List String → String
  | [] => ""
  | [x] => x
  | x :: y :: rest => x ++ sep ++ strIntercalate sep (y :: rest)

/-- Parsing of a type line, the body of `Deck.get_card_type` after the lookup:
`card_type.split(" — ")` unpacked into `main_type, sub_types`.  With no
separator the result is the lowered line alone; with one separator it is the
lowered main type followed by the lowered space-split subtypes; with more than
one separator the Python tuple unpacking raises `ValueError`, modelled as
`none`. -/
def parse_type_line (card_type : String) : Option (List String) :=
  match pySplit card_type (" — ") with
  | [t] => some [strLower t]
  | [main_type, sub_types] =>
      some (strLower main_type :: (pySplit sub_types (" ")).map strLower)
  | _ => none

/-- `Deck.get_card_type`: looks the card up in `card_dict` and decomposes its
type line.  `none` covers both the `None` returned by the Python code for a
missing card (which every caller immediately iterates, raising `TypeError`)
and the `ValueError` from a type line with more than one " — " separator. -/
def get_card_type (card_dict : List (String × Card)) (card_name : String) :
    Option (List String) :=
  match card_dict.lookup card_name with
  | some card_features => parse_type_line card_features.type
  | none => none

/-- `Deck.get_card_color`: the `colors` entry of the card, or `none` when the
card is not in `card_dict`. -/
def get_card_color (card_dict : List (String × Card)) (card_name : String) :
    Option (List String) :=
  match card_dict.lookup card_name with
  | some card_features => some card_features.colors
  | none => none

/-- The `basic_lands` list local to `Deck.data_preparation`. -/
def basic_lands_names : List String :=
  ["forest", "island", "mountain", "plains", "swamp"]

/-- The loop body of `Deck.data_preparation`: iterates the entries of
`card_dict`, appending to `valid_cards` each card whose colors all belong to
the commander colors (or are exactly `["Colorless"]`) and whose type list
matches the tribal/basic-land/non-creature condition.  A card whose type line
fails to parse makes the Python code raise, modelled as `none`. -/
def data_prep_loop (card_dict : List (String × Card)) (commander_colors : List String)
    (tribal_type : String) :
    List (String × Card) → List Card → Option (List Card)
  | [], valid_cards => some valid_cards
  | (card_name, card) :: rest, valid_cards =>
    match get_card_color card_dict card_name, get_card_type card_dict card_name with
    | some card_colors, some card_types0 =>
        let card_types := card_types0.map strLower
        let colors_match : Bool :=
          if card_colors = ["Colorless"] then true
          else card_colors.all (fun color => commander_colors.contains color)
        if colors_match &&
            ((card_types.contains tribal_type && card_types.contains ("creature"))
              || basic_lands_names.contains card_name
              || (colors_match && !(card_types.contains ("creature")))) then
          data_prep_loop card_dict commander_colors tribal_type rest (valid_cards ++ [card])
        else
          data_prep_loop card_dict commander_colors tribal_type rest valid_cards
    | _, _ => none

/-- `Deck.data_preparation`: lowers the tribal type, then filters the whole
card table with `data_prep_loop`. -/
def data_preparation (card_dict : List (String × Card)) (commander_colors : List String)
    (tribal_type : String) : Option (List Card) :=
  data_prep_loop card_dict commander_colors (strLower tribal_type) card_dict []

/-- The document built for one card by `Deck.similarity_calculation`: the
rules text, the ability digest (whitespace tokens of the text whose uppercased
form is in `ABILITY_WORDS_SET`), the space-joined colors, the type line and
the mana cost, joined by single spaces. -/
def mkDoc (card : Card) (text : String) : String :=
  let abilities := strIntercalate (" ")
    ((pySplitWs text).filter (fun word => ABILITY_WORDS.contains (strUpper word)))
  let color := strIntercalate (" ") card.colors
  text ++ (" ") ++ abilities ++ (" ") ++ color ++ (" ") ++ card.type
    ++ (" ") ++ card.cmc

/-- The `texts` list of `Deck.similarity_calculation`: one document per card
whose `text` field is not `None`, in candidate order. -/
def build_texts : List Card → List String
  | [] => []
  | card :: rest =>
    match card.text with
    | some text => mkDoc card text :: build_texts rest
    | none => build_texts rest

/-- Whether a character counts as a word character for the scikit-learn
default token pattern `\w\w+` (ASCII letters, digits, underscore). -/
def isWordChar (c : Char) : Bool := c.isAlphanum || c = '_'

/-- The scikit-learn default analyzer: lowercase the document, cut it at
non-word characters, and keep the maximal word-character runs of length at
least two. -/
def tokenize (s : String) : List String :=
  (splitP (fun c => !isWordChar c) (strLower s)).filter (fun t => 2 ≤ t.length)

/-- The vocabulary fitted by `TfidfVectorizer` on the documents: the distinct
tokens occurring in them (the fitted order is irrelevant here, only
membership and emptiness are used). -/
def vocabulary (texts : List String) : List String :=
  (texts.flatMap tokenize).dedup

/-- Document frequency of a term: the number of documents containing it. -/
def docFreq (texts : List String) (t : String) : Nat :=
  (texts.filter (fun d => (tokenize d).contains t)).length

/-- The smoothed inverse document frequency used by `TfidfVectorizer`
(`smooth_idf=True`): `ln((1 + n) / (1 + df)) + 1`. -/
noncomputable def idf (texts : List String) (t : String) : ℝ :=
  Real.log ((1 + texts.length) / (1 + docFreq texts t)) + 1

/-- One entry of the raw (un-normalised) TF-IDF matrix: the term count of `t`
in document `d` times the inverse document frequency of `t`. -/
noncomputable def tfidfEntry (texts : List String) (d t : String) : ℝ :=
  ((tokenize d).count t : ℝ) * idf texts t

/-- The dot product of the raw TF-IDF rows of two documents, summed over the
fitted vocabulary. -/
noncomputable def rawDot (texts : List String) (d1 d2 : String) : ℝ :=
  ∑ t ∈ (vocabulary texts).toFinset, tfidfEntry texts d1 t * tfidfEntry texts d2 t

/-- The `linear_kernel` entry for two documents after the l2 row normalisation
performed by `TfidfVectorizer` (`norm="l2"`): zero when either row is zero
(scikit-learn leaves zero rows unscaled), otherwise the cosine of the two raw
rows. -/
noncomputable def simDocs (texts : List String) (d1 d2 : String) : ℝ :=
  if rawDot texts d1 d1 = 0 ∨ rawDot texts d2 d2 = 0 then 0
  else rawDot texts d1 d2 /
    (Real.sqrt (rawDot texts d1 d1) * Real.sqrt (rawDot texts d2 d2))

/-- The `linear_kernel` entry for the document rows `i` and `j`. -/
noncomputable def simAt (texts : List String) (i j : Nat) : ℝ :=
  simDocs texts (texts.getD i ("")) (texts.getD j (""))

/-- The key list of the dictionary comprehension of
`Deck.similarity_calculation`: `(i, j)` for `i` in `range(n)` and `j` in
`range(i + 1, n)`. -/
def scoreKeys (n : Nat) : List (Nat × Nat) :=
  (List.range n).flatMap
    (fun i => (List.range' (i + 1) (n - (i + 1))).map (fun j => (i, j)))

/-- `Deck.similarity_calculation`: builds the per-card documents, fits the
TF-IDF vectorizer and returns the upper-triangle dictionary of pairwise
kernel values.  `TfidfVectorizer.fit_transform` raises `ValueError`
("empty vocabulary") when the documents produce no token — in particular when
the candidate set contributes no document at all — modelled as `none`. -/
noncomputable def similarity_calculation (valid_cards : List Card) :
    Option (List ((Nat × Nat) × ℝ)) :=
  let texts := build_texts valid_cards
  match (vocabulary texts).isEmpty with
  | true => none
  | false =>
      some ((scoreKeys texts.length).map (fun ij => (ij, simAt texts ij.1 ij.2)))

/-- The embedded `networkx.Graph`: insertion-ordered nodes and undirected
edges, each undirected edge stored once in insertion order. -/
structure Graph where
  nodes : List String
  edges : List (String × String)
  deriving DecidableEq

/-- The graph with no nodes and no edges (`nx.Graph()`). -/
def Graph.empty : Graph := ⟨[], []⟩

/-- Whether two stored edges denote the same undirected edge. -/
def sameUEdge (e f : String × String) : Bool :=
  (e.1 = f.1 && e.2 = f.2) || (e.1 = f.2 && e.2 = f.1)

/-- Whether the graph has an undirected edge between `a` and `b`, in either
stored orientation. -/
def Graph.hasEdge (G : Graph) (a b : String) : Bool :=
  G.edges.any (fun e => sameUEdge e (a, b))

/-- `G.add_node(n)`: appends the node unless already present. -/
def Graph.add_node (G : Graph) (n : String) : Graph :=
  if G.nodes.contains n then G else ⟨G.nodes ++ [n], G.edges⟩

/-- `G.add_edge(a, b)`: inserts missing endpoints, then records the
undirected edge unless an equal undirected edge is already present. -/
def Graph.add_edge (G : Graph) (a b : String) : Graph :=
  let G' := (G.add_node a).add_node b
  if G'.hasEdge a b then G' else ⟨G'.nodes, G'.edges ++ [(a, b)]⟩

/-- The `networkx` degree of a node: each incident edge counts once per
endpoint equal to the node, so a self loop counts twice. -/
def Graph.degree (G : Graph) (n : String) : Nat :=
  G.edges.countP (fun e => e.1 = n) + G.edges.countP (fun e => e.2 = n)

/-- `G.degree()`: the (node, degree) pairs in node insertion order. -/
def Graph.degreeList (G : Graph) : List (String × Nat) :=
  G.nodes.map (fun n => (n, G.degree n))

/-- The body of the inner `for j, card2 in enumerate(all_cards)` loop of
`Deck.graph_construction`: when `i ≠ j`, the pair `(i, j)` is a key of
`similarities` and its score strictly exceeds the threshold, the edge between
the two card names is added.  Scores are generic over a linear order (Python
floats compared with `>`). -/
def inner_step {α : Type} [LinearOrder α]
    (similarities : List ((Nat × Nat) × α)) (threshold : α)
    (i j : Nat) (name1 name2 : String) (G : Graph) : Graph :=
  if i ≠ j then
    match similarities.lookup (i, j) with
    | some similarity =>
        if threshold < similarity then G.add_edge name1 name2 else G
    | none => G
  else G

/-- The inner `for j, card2 in enumerate(all_cards)` loop of
`Deck.graph_construction`, for a fixed outer index `i` and outer card name
`name1`: one `inner_step` per enumerated card. -/
def add_edges_inner {α : Type} [LinearOrder α]
    (similarities : List ((Nat × Nat) × α)) (threshold : α)
    (i : Nat) (name1 : String) :
    List (Nat × Card) → Graph → Graph
  | [], G => G
  | (j, card2) :: rest, G =>
      add_edges_inner similarities threshold i name1 rest
        (inner_step similarities threshold i j name1 card2.name G)

/-- The outer `for i, card1 in enumerate(all_cards)` loop of
`Deck.graph_construction`. -/
def add_edges_outer {α : Type} [LinearOrder α]
    (similarities : List ((Nat × Nat) × α)) (threshold : α)
    (all_enum : List (Nat × Card)) :
    List (Nat × Card) → Graph → Graph
  | [], G => G
  | (i, card1) :: rest, G =>
      add_edges_outer similarities threshold all_enum rest
        (add_edges_inner similarities threshold i card1.name all_enum G)

/-- `Deck.graph_construction`: every card name becomes a node, then the double
`enumerate` loop adds an edge for each index pair `(i, j)` with `i ≠ j` whose
similarity entry exceeds the threshold. -/
def graph_construction {α : Type} [LinearOrder α] (all_cards : List Card)
    (similarities : List ((Nat × Nat) × α)) (threshold : α) : Graph :=
  let G := all_cards.foldl (fun G card => G.add_node card.name) Graph.empty
  add_edges_outer similarities threshold all_cards.enum all_cards.enum G

/-- Stable insertion into a list sorted by strictly descending-or-equal second
component: the new element goes before the first element with a key less than
or equal to its own, hence before later-ranked elements of equal key. -/
def insertDesc (x : String × Nat) : List (String × Nat) → List (String × Nat)
  | [] => [x]
  | y :: ys => if y.2 ≤ x.2 then x :: y :: ys else y :: insertDesc x ys

/-- Python `sorted(G.degree(), key=lambda x: x[1], reverse=True)`: a stable
sort by descending degree (equal degrees keep their node insertion order). -/
def sortDesc : List (String × Nat) → List (String × Nat)
  | [] => []
  | x :: xs => insertDesc x (sortDesc xs)

/-- The `deck_counts` dictionary of `Deck.build_deck`: the running number of
added cards of each tracked type. -/
structure DeckCounts where
  creature : Nat
  artifact : Nat
  enchantment : Nat
  instant : Nat
  sorcery : Nat
  deriving DecidableEq

/-- The initial `deck_counts` dictionary, all zero. -/
def DeckCounts.init : DeckCounts := ⟨0, 0, 0, 0, 0⟩

/-- `deck_counts[card_type]` together with the membership test
`card_type in deck_counts`: `none` for an untracked type. -/
def DeckCounts.find : DeckCounts → String → Option Nat
  | c, t =>
    if t = "creature" then some c.creature
    else if t = "artifact" then some c.artifact
    else if t = "enchantment" then some c.enchantment
    else if t = "instant" then some c.instant
    else if t = "sorcery" then some c.sorcery
    else none

/-- `deck_counts[card_type] += 1` for a tracked type (identity otherwise). -/
def DeckCounts.bump : DeckCounts → String → DeckCounts
  | c, t =>
    if t = "creature" then { c with creature := c.creature + 1 }
    else if t = "artifact" then { c with artifact := c.artifact + 1 }
    else if t = "enchantment" then { c with enchantment := c.enchantment + 1 }
    else if t = "instant" then { c with instant := c.instant + 1 }
    else if t = "sorcery" then { c with sorcery := c.sorcery + 1 }
    else c

/-- The `card_type_limits` dictionary of `Deck.build_deck` (31 creatures, 6
artifacts, 6 enchantments, 10 instants, 10 sorceries); the default 0 is never
reached on tracked types. -/
def card_type_limits (t : String) : Nat :=
  if t = "creature" then 31
  else if t = "artifact" then 6
  else if t = "enchantment" then 6
  else if t = "instant" then 10
  else if t = "sorcery" then 10
  else 0

/-- One iteration of the inner `for card_type in card_types` loop of
`Deck.build_deck`: when the type is tracked and below its limit, the card
identifier is appended and the count bumped. -/
def quotaStep (card_id : String) (p : List String × DeckCounts) (card_type : String) :
    List String × DeckCounts :=
  match p.2.find card_type with
  | some c =>
      if c < card_type_limits card_type then (p.1 ++ [card_id], p.2.bump card_type)
      else p
  | none => p

/-- The outer `for card_id, degree in sorted_nodes` loop of `Deck.build_deck`:
stops when the deck has reached 100 entries, otherwise looks the node up in
`card_dict` (a failed lookup or malformed type line raises in Python, hence
`none`) and runs the inner quota loop over its type list. -/
def build_loop (card_dict : List (String × Card)) :
    List (String × Nat) → List String → DeckCounts → Option (List String)
  | [], deck, _ => some deck
  | (card_id, _) :: rest, deck, counts =>
    if 100 ≤ deck.length then some deck
    else
      match get_card_type card_dict (strLower card_id) with
      | none => none
      | some card_types =>
          let p := card_types.foldl (quotaStep card_id) (deck, counts)
          build_loop card_dict rest p.1 p.2

/-- The `basic_lands` dictionary of `Deck.build_deck`, in insertion order. -/
def basic_lands_colors : List (String × String) :=
  [("Plains", "W"), ("Island", "U"), ("Swamp", "B"),
   ("Mountain", "R"), ("Forest", "G")]

/-- The lands of `basic_lands_colors` whose color is among the commander
colors, in dictionary order. -/
def selected_lands (commander_colors : List String) : List String :=
  (basic_lands_colors.filter
    (fun lc => commander_colors.contains lc.2)).map Prod.fst

/-- `Deck.build_deck`: seeds the deck with the commander, returns `[]` when no
basic land matches the commander colors, otherwise appends `37 // k` copies of
each of the `k` selected lands and runs the quota loop over the graph nodes
sorted by descending degree. -/
def build_deck (card_dict : List (String × Card)) (G : Graph)
    (commander_id : String) (commander_colors : List String) :
    Option (List String) :=
  let deck := [commander_id]
  let sel := selected_lands commander_colors
  if sel.isEmpty then some []
  else
    let num_lands := 37
    let num_each_land := num_lands / sel.length
    let deck := sel.foldl (fun d land => d ++ List.replicate num_each_land land) deck
    let sorted_nodes := sortDesc G.degreeList
    build_loop card_dict sorted_nodes deck DeckCounts.init

/-! Derived definitions used to state and prove the claims. -/

/-- Total number of quota slots consumed so far. -/
def DeckCounts.total (c : DeckCounts) : Nat :=
  c.creature + c.artifact + c.enchantment + c.instant + c.sorcery

/-- Every tracked count is within its `card_type_limits` bound.  The five
limits sum to 63. -/
def DeckCounts.Bounded (c : DeckCounts) : Prop :=
  c.creature ≤ 31 ∧ c.artifact ≤ 6 ∧ c.enchantment ≤ 6 ∧
    c.instant ≤ 10 ∧ c.sorcery ≤ 10

/-- The boolean inclusion condition applied by `data_prep_loop` to a table
key, written as a standalone predicate (lookup based, exactly as the loop
computes it; `false` when either lookup is undefined). -/
def dp_included (card_dict : List (String × Card)) (commander_colors : List String)
    (tt : String) (card_name : String) : Bool :=
  match get_card_color card_dict card_name, get_card_type card_dict card_name with
  | some card_colors, some card_types0 =>
      let card_types := card_types0.map strLower
      let colors_match : Bool :=
        if card_colors = ["Colorless"] then true
        else card_colors.all (fun color => commander_colors.contains color)
      colors_match &&
        ((card_types.contains tt && card_types.contains ("creature"))
          || basic_lands_names.contains card_name
          || (colors_match && !(card_types.contains ("creature"))))
  | _, _ => false

/-- The inclusion condition exactly as claim C3 words it: colors all among the
commander colors or exactly colorless, and (subtypes contain the tribal type
(case-insensitively) and the main type is "creature", or the name is a basic
land name, or the main type differs from "creature").  The type line is
decomposed into main type and subtypes as in the data model. -/
def spec_included_C3 (commander_colors : List String) (tribal_type : String)
    (card_name : String) (card : Card) : Prop :=
  ((∀ col ∈ card.colors, col ∈ commander_colors) ∨ card.colors = ["Colorless"]) ∧
  ((parse_type_line card.type).isSome = true ∧
    ((strLower tribal_type ∈ ((parse_type_line card.type).getD []).tail
        ∧ ((parse_type_line card.type).getD []).headD ("") = "creature")
      ∨ card_name ∈ basic_lands_names
      ∨ ((parse_type_line card.type).getD []).headD ("") ≠ "creature"))

instance (cc : List String) (tt nm : String) (c : Card) :
    Decidable (spec_included_C3 cc tt nm c) := by
  unfold spec_included_C3
  infer_instance

/-- The document contributed by a card to the TF-IDF batch (meaningful when
`text` is present; `build_texts` never evaluates it otherwise). -/
def docOfCard (c : Card) : String := mkDoc c (c.text.getD (""))

/-! Concrete instances used by counterexamples and witnesses. -/

/-- A card record with the given name and type line and inert remaining
fields. -/
def mkCard (nm ty : String) : Card :=
  { colors := ["W"], cmc := "1", text := none, type := ty,
    power := none, toughness := none, loyalty := none, id := none,
    name := nm }

/-- A card-table entry keyed by the card name. -/
def typedCard (p : String × String) : String × Card :=
  (p.1, mkCard p.1 p.2)

/-- Two isolated test cards for the graph builder witnesses. -/
def twoCards : List Card := [mkCard ("a") ("Creature"), mkCard ("b") ("Creature")]

/-- A card record with the given name and rules text and inert remaining
fields. -/
def textCard (nm t : String) : Card :=
  { colors := ["W"], cmc := "1", text := some t, type := "Creature",
    power := none, toughness := none, loyalty := none, id := none,
    name := nm }

/-- Candidate list exhibiting the index misalignment: the first card has no
rules text, so the scored sub-list starts at the second card while the graph
indices start at the first. -/
def c4cards : List Card :=
  [mkCard ("x") ("Creature"), textCard ("a") ("Flying"),
   textCard ("b") ("Trample")]

/-- The similarity table the pipeline computes on `c4cards`. -/
noncomputable def c4tbl : List ((Nat × Nat) × ℝ) :=
  (similarity_calculation c4cards).getD []

/-- Two text-bearing candidates for the C7 witness. -/
def c7cards : List Card := [textCard ("a") ("Flying"), textCard ("b") ("Trample")]

/-- The similarity table computed on `c7cards`. -/
noncomputable def c7tbl : List ((Nat × Nat) × ℝ) :=
  (similarity_calculation c7cards).getD []

/-- Name/type pairs driving the deck past 100 entries: 61 cards that fill all
quota slots but two sorcery slots, then one card whose type list is
`["sorcery", "sorcery"]` and is therefore appended twice in the final
iteration. -/
def c1pairs : List (String × String) :=
  [("cr0", "Creature"), ("cr1", "Creature"), ("cr2", "Creature"),
   ("cr3", "Creature"), ("cr4", "Creature"), ("cr5", "Creature"),
   ("cr6", "Creature"), ("cr7", "Creature"), ("cr8", "Creature"),
   ("cr9", "Creature"), ("cr10", "Creature"), ("cr11", "Creature"),
   ("cr12", "Creature"), ("cr13", "Creature"), ("cr14", "Creature"),
   ("cr15", "Creature"), ("cr16", "Creature"), ("cr17", "Creature"),
   ("cr18", "Creature"), ("cr19", "Creature"), ("cr20", "Creature"),
   ("cr21", "Creature"), ("cr22", "Creature"), ("cr23", "Creature"),
   ("cr24", "Creature"), ("cr25", "Creature"), ("cr26", "Creature"),
   ("cr27", "Creature"), ("cr28", "Creature"), ("cr29", "Creature"),
   ("cr30", "Creature"),
   ("ar0", "Artifact"), ("ar1", "Artifact"), ("ar2", "Artifact"),
   ("ar3", "Artifact"), ("ar4", "Artifact"), ("ar5", "Artifact"),
   ("en0", "Enchantment"), ("en1", "Enchantment"), ("en2", "Enchantment"),
   ("en3", "Enchantment"), ("en4", "Enchantment"), ("en5", "Enchantment"),
   ("in0", "Instant"), ("in1", "Instant"), ("in2", "Instant"),
   ("in3", "Instant"), ("in4", "Instant"), ("in5", "Instant"),
   ("in6", "Instant"), ("in7", "Instant"), ("in8", "Instant"),
   ("in9", "Instant"),
   ("so0", "Sorcery"), ("so1", "Sorcery"), ("so2", "Sorcery"),
   ("so3", "Sorcery"), ("so4", "Sorcery"), ("so5", "Sorcery"),
   ("so6", "Sorcery"), ("so7", "Sorcery"),
   ("dbl", "Sorcery — Sorcery")]

/-- The card table for the C1 counterexample. -/
def c1cd : List (String × Card) := c1pairs.map typedCard

/-- The graph for the C1 counterexample: all 62 cards as isolated nodes, in
the order of `c1pairs`. -/
def c1G : Graph := ⟨c1pairs.map Prod.fst, []⟩

/-- A white creature card with the bare type line "Creature", used against
tribal type "creature". -/
def cardPlainCreature : Card :=
  { colors := ["W"], cmc := "1", text := some "t", type := "Creature",
    power := none, toughness := none, loyalty := none, id := none,
    name := "X" }

/-! Helper lemmas about the deck assembler. -/

theorem DeckCounts.total_le {c : DeckCounts} (h : c.Bounded) : c.total ≤ 63 := by
  obtain ⟨h1, h2, h3, h4, h5⟩ := h
  simp only [DeckCounts.total]
  omega

theorem quotaStep_invariant (card_id : String) (p : List String × DeckCounts)
    (t : String) (hb : p.2.Bounded) :
    (quotaStep card_id p t).2.Bounded ∧
    (quotaStep card_id p t).1.length + p.2.total
      = p.1.length + (quotaStep card_id p t).2.total := by
  obtain ⟨d, c⟩ := p
  obtain ⟨h1, h2, h3, h4, h5⟩ := hb
  simp only [quotaStep, DeckCounts.find, card_type_limits, DeckCounts.bump]
  split_ifs <;> dsimp only <;> (try split_ifs) <;>
    refine ⟨⟨?_, ?_, ?_, ?_, ?_⟩, ?_⟩ <;>
    simp_all [DeckCounts.total, DeckCounts.Bounded] <;> omega

theorem quota_fold_invariant (card_id : String) (tys : List String)
    (d : List String) (c : DeckCounts) (hb : c.Bounded) :
    (tys.foldl (quotaStep card_id) (d, c)).2.Bounded ∧
    (tys.foldl (quotaStep card_id) (d, c)).1.length + c.total
      = d.length + (tys.foldl (quotaStep card_id) (d, c)).2.total := by
  induction tys generalizing d c with
  | nil => exact ⟨hb, rfl⟩
  | cons t ts ih =>
    obtain ⟨hb1, hlen1⟩ := quotaStep_invariant card_id (d, c) t hb
    obtain ⟨hb2, hlen2⟩ :=
      ih (quotaStep card_id (d, c) t).1 (quotaStep card_id (d, c) t).2 hb1
    dsimp only at hlen1
    simp only [List.foldl_cons]
    rw [show quotaStep card_id (d, c) t
        = ((quotaStep card_id (d, c) t).1, (quotaStep card_id (d, c) t).2) from rfl]
    exact ⟨hb2, by omega⟩

theorem build_loop_length (cd : List (String × Card)) (l : List (String × Nat))
    (d : List String) (c : DeckCounts) (out : List String)
    (hb : c.Bounded) (h : build_loop cd l d c = some out) :
    out.length + c.total ≤ d.length + 63 := by
  induction l generalizing d c with
  | nil =>
    simp only [build_loop, Option.some.injEq] at h
    subst h
    have := DeckCounts.total_le hb
    omega
  | cons x rest ih =>
    obtain ⟨card_id, deg⟩ := x
    simp only [build_loop] at h
    split at h
    · simp only [Option.some.injEq] at h
      subst h
      have := DeckCounts.total_le hb
      omega
    · split at h
      · exact absurd h (by simp)
      · rename_i tys hty
        obtain ⟨hb2, hlen2⟩ := quota_fold_invariant card_id tys d c hb
        have := ih _ _ hb2 h
        omega

theorem quotaStep_extends (card_id : String) (p : List String × DeckCounts)
    (t : String) : ∃ ext, (quotaStep card_id p t).1 = p.1 ++ ext := by
  obtain ⟨d, c⟩ := p
  simp only [quotaStep]
  split
  · split
    · exact ⟨[card_id], rfl⟩
    · exact ⟨[], by simp⟩
  · exact ⟨[], by simp⟩

theorem quota_fold_extends (card_id : String) (tys : List String)
    (d : List String) (c : DeckCounts) :
    ∃ ext, (tys.foldl (quotaStep card_id) (d, c)).1 = d ++ ext := by
  induction tys generalizing d c with
  | nil => exact ⟨[], by simp⟩
  | cons t ts ih =>
    obtain ⟨e1, he1⟩ := quotaStep_extends card_id (d, c) t
    obtain ⟨e2, he2⟩ := ih (quotaStep card_id (d, c) t).1 (quotaStep card_id (d, c) t).2
    refine ⟨e1 ++ e2, ?_⟩
    simp only [List.foldl_cons]
    rw [← List.append_assoc, ← he1]
    simpa using he2

theorem build_loop_extends (cd : List (String × Card)) (l : List (String × Nat))
    (d : List String) (c : DeckCounts) (out : List String)
    (h : build_loop cd l d c = some out) : ∃ ext, out = d ++ ext := by
  induction l generalizing d c with
  | nil =>
    simp only [build_loop, Option.some.injEq] at h
    exact ⟨[], by simp [h.symm]⟩
  | cons x rest ih =>
    obtain ⟨card_id, deg⟩ := x
    simp only [build_loop] at h
    split at h
    · simp only [Option.some.injEq] at h
      exact ⟨[], by simp [h.symm]⟩
    · split at h
      · exact absurd h (by simp)
      · rename_i tys hty
        obtain ⟨e1, he1⟩ := quota_fold_extends card_id tys d c
        obtain ⟨e2, he2⟩ := ih _ _ h
        exact ⟨e1 ++ e2, by rw [he2, he1, List.append_assoc]⟩

theorem foldl_replicate_eq (n : Nat) (sel : List String) (init : List String) :
    sel.foldl (fun d land => d ++ List.replicate n land) init
      = init ++ sel.flatMap (fun land => List.replicate n land) := by
  induction sel generalizing init with
  | nil => simp
  | cons a as ih => simp [ih, List.append_assoc]

theorem flatMap_replicate_length (n : Nat) (sel : List String) :
    (sel.flatMap (fun land => List.replicate n land)).length = sel.length * n := by
  induction sel with
  | nil => simp
  | cons a as ih => simp [ih, Nat.succ_mul]; omega

theorem deckCounts_init_bounded : DeckCounts.init.Bounded := by
  refine ⟨?_, ?_, ?_, ?_, ?_⟩ <;> simp [DeckCounts.init]

theorem selected_lands_eq_nil {cc : List String} (hW : ("W" : String) ∉ cc)
    (hU : ("U" : String) ∉ cc) (hB : ("B" : String) ∉ cc)
    (hR : ("R" : String) ∉ cc) (hG : ("G" : String) ∉ cc) :
    selected_lands cc = [] := by
  simp [selected_lands, basic_lands_colors, List.filter, hW, hU, hB, hR, hG]

theorem build_deck_prefix (cd : List (String × Card)) (G : Graph) (cmd : String)
    (cc : List String) (out : List String) (hsel : selected_lands cc ≠ [])
    (h : build_deck cd G cmd cc = some out) :
    ∃ ext, out = cmd ::
      ((selected_lands cc).flatMap
        (fun land => List.replicate (37 / (selected_lands cc).length) land)) ++ ext := by
  simp only [build_deck] at h
  rw [if_neg (by simp [hsel])] at h
  obtain ⟨ext, hext⟩ := build_loop_extends _ _ _ _ _ h
  rw [foldl_replicate_eq] at hext
  exact ⟨ext, by simpa using hext⟩

/-- C10: when none of the five basic land colors is among the commander
colors, `build_deck` returns the empty deck (the explicit "no legal lands"
rejection) rather than raising. -/
theorem c10_no_legal_lands (cd : List (String × Card)) (G : Graph)
    (cmd : String) (cc : List String) (hW : ("W" : String) ∉ cc)
    (hU : ("U" : String) ∉ cc) (hB : ("B" : String) ∉ cc)
    (hR : ("R" : String) ∉ cc) (hG : ("G" : String) ∉ cc) :
    build_deck cd G cmd cc = some [] := by
  have hsel : selected_lands cc = [] := selected_lands_eq_nil hW hU hB hR hG
  simp [build_deck, hsel]

/-- Witness for C10 at the empty commander color set. -/
theorem c10_witness :
    (("W" : String) ∉ ([] : List String)) ∧
    build_deck [] ⟨[], []⟩ ("boss") [] = some [] :=
  ⟨by decide,
   c10_no_legal_lands [] ⟨[], []⟩ ("boss") [] (by decide) (by decide) (by decide)
     (by decide) (by decide)⟩

/-- C1 (amended): every deck `build_deck` returns has length at most 101.  The
100-stop is checked before a card is processed, and the final card is appended
once per matching quota type, so the bound 100 of the claim fails (see the
counterexample); the land block (at most 38 entries with the commander) plus
the 63 quota slots bound the deck by 101. -/
theorem c1_build_deck_length_le_101 (cd : List (String × Card)) (G : Graph)
    (cmd : String) (cc : List String) (out : List String)
    (h : build_deck cd G cmd cc = some out) : out.length ≤ 101 := by
  simp only [build_deck] at h
  by_cases hsel : (selected_lands cc).isEmpty
  · rw [if_pos hsel] at h
    simp only [Option.some.injEq] at h
    simp [h.symm]
  · rw [if_neg hsel] at h
    have hb := build_loop_length _ _ _ _ _ deckCounts_init_bounded h
    rw [foldl_replicate_eq] at hb
    have h0 : DeckCounts.init.total = 0 := rfl
    have hlen := flatMap_replicate_length
      (37 / (selected_lands cc).length) (selected_lands cc)
    have hdiv := Nat.div_mul_le_self 37 (selected_lands cc).length
    have hcomm := Nat.mul_comm (selected_lands cc).length
      (37 / (selected_lands cc).length)
    simp only [List.length_append, List.length_cons, List.length_nil] at hb
    omega

set_option maxRecDepth 40000 in
/-- Counterexample for C1: a card table and graph on which the returned deck
has 101 entries, exceeding the claimed bound 100 (the type list of the last
card is `["sorcery", "sorcery"]`, so it is appended twice in one iteration). -/
theorem c1_counterexample :
    (build_deck c1cd c1G ("boss") ["W"]).map List.length = some 101 ∧ 100 < 101 := by
  constructor
  · decide
  · decide

/-- Witness for C1 on a small concrete input. -/
theorem c1_witness :
    build_deck [] ⟨[], []⟩ ("c") ["W"] = some (("c") :: List.replicate 37 ("Plains"))
    ∧ (("c") :: List.replicate 37 ("Plains")).length ≤ 101 :=
  ⟨by decide, c1_build_deck_length_le_101 [] ⟨[], []⟩ ("c") ["W"] _ (by decide)⟩

/-- C2 (amended): whenever at least one basic land matches the commander
colors, the returned deck is non-empty and starts with the commander
identifier.  (With no matching land the deck is the empty rejection of C10,
so the unconditional claim fails; see the counterexample.) -/
theorem c2_deck_starts_with_commander (cd : List (String × Card)) (G : Graph)
    (cmd : String) (cc : List String) (out : List String)
    (hsel : selected_lands cc ≠ [])
    (h : build_deck cd G cmd cc = some out) :
    out ≠ [] ∧ out.head? = some cmd := by
  obtain ⟨ext, hext⟩ := build_deck_prefix cd G cmd cc out hsel h
  subst hext
  exact ⟨by simp, rfl⟩

/-- Counterexample for C2: with a commander color set matching no basic land,
`build_deck` returns the empty deck, which does not start with the commander
identifier. -/
theorem c2_counterexample :
    build_deck [] ⟨[], []⟩ ("boss") [] = some []
    ∧ (([] : List String).head? ≠ some ("boss")) := by
  constructor
  · decide
  · decide

/-- Witness for C2 on a small concrete input. -/
theorem c2_witness :
    selected_lands ["W"] ≠ [] ∧
    build_deck [] ⟨[], []⟩ ("c") ["W"] = some (("c") :: List.replicate 37 ("Plains"))
    ∧ (("c") :: List.replicate 37 ("Plains")) ≠ []
    ∧ (("c") :: List.replicate 37 ("Plains")).head? = some ("c") :=
  ⟨by decide, by decide,
   c2_deck_starts_with_commander [] ⟨[], []⟩ ("c") ["W"] _ (by decide) (by decide)⟩

/-- C6 (amended): with commander colors containing exactly white and blue the
deck continues with 18 copies of Plains followed by 18 copies of Island
(`37 // 2 = 18`; the remainder is dropped, not given to either land), and with
white alone it continues with exactly 37 copies of Plains. -/
theorem c6_land_counts (cd : List (String × Card)) (G : Graph) (cmd : String) :
    (∀ out, build_deck cd G cmd ["W", "U"] = some out →
      ∃ ext, out = cmd :: (List.replicate 18 ("Plains") ++ List.replicate 18 ("Island")) ++ ext)
    ∧ (∀ out, build_deck cd G cmd ["W"] = some out →
      ∃ ext, out = cmd :: List.replicate 37 ("Plains") ++ ext) := by
  constructor
  · intro out h
    obtain ⟨ext, hext⟩ := build_deck_prefix cd G cmd ["W", "U"] out (by decide) h
    refine ⟨ext, ?_⟩
    rw [hext]
    rw [show selected_lands ["W", "U"] = ["Plains", "Island"] from by decide]
    simp
  · intro out h
    obtain ⟨ext, hext⟩ := build_deck_prefix cd G cmd ["W"] out (by decide) h
    refine ⟨ext, ?_⟩
    rw [hext]
    rw [show selected_lands ["W"] = ["Plains"] from by decide]
    simp

/-- Counterexample for C6: for commander colors white and blue the deck holds
18 Plains and 18 Islands — no selected land receives 19 copies, so "18 of one
and 19 of the other" fails. -/
theorem c6_counterexample :
    build_deck [] ⟨[], []⟩ ("c") ["W", "U"]
      = some (("c") :: (List.replicate 18 ("Plains") ++ List.replicate 18 ("Island")))
    ∧ (("c") :: (List.replicate 18 ("Plains") ++ List.replicate 18 ("Island"))).count ("Plains") = 18
    ∧ (("c") :: (List.replicate 18 ("Plains") ++ List.replicate 18 ("Island"))).count ("Island") = 18 := by
  refine ⟨by decide, by decide, by decide⟩

/-- Witness for C6 on a small concrete input. -/
theorem c6_witness :
    ∃ ext, (("c") :: (List.replicate 18 ("Plains") ++ List.replicate 18 ("Island")))
      = ("c") :: (List.replicate 18 ("Plains") ++ List.replicate 18 ("Island")) ++ ext :=
  (c6_land_counts [] ⟨[], []⟩ ("c")).1 _ (by decide)

/-! Helper lemmas about the graph model. -/

theorem edges_add_node (G : Graph) (n : String) :
    (G.add_node n).edges = G.edges := by
  unfold Graph.add_node
  split <;> rfl

theorem sameUEdge_swap (e : String × String) (x y : String) :
    sameUEdge e (x, y) = sameUEdge e (y, x) := by
  simp only [sameUEdge]
  exact Bool.or_comm _ _

theorem hasEdge_eq_of_sameUEdge {a b x y : String}
    (h : sameUEdge (a, b) (x, y) = true) (G : Graph) :
    G.hasEdge a b = G.hasEdge x y := by
  simp only [sameUEdge, Bool.or_eq_true, Bool.and_eq_true, decide_eq_true_eq] at h
  rcases h with ⟨rfl, rfl⟩ | ⟨rfl, rfl⟩
  · rfl
  · unfold Graph.hasEdge
    congr 1
    funext e
    exact (sameUEdge_swap e _ _).symm

theorem hasEdge_add_node (G : Graph) (n x y : String) :
    (G.add_node n).hasEdge x y = G.hasEdge x y := by
  unfold Graph.hasEdge
  rw [edges_add_node]

theorem hasEdge_add_edge (G : Graph) (a b x y : String) :
    (G.add_edge a b).hasEdge x y
      = (G.hasEdge x y || sameUEdge (a, b) (x, y)) := by
  simp only [Graph.add_edge]
  split_ifs with hab
  · rw [hasEdge_add_node, hasEdge_add_node]
    by_cases hs : sameUEdge (a, b) (x, y) = true
    · rw [hasEdge_add_node, hasEdge_add_node, hasEdge_eq_of_sameUEdge hs] at hab
      simp [hab, hs]
    · simp [Bool.not_eq_true] at hs
      simp [hs]
  · unfold Graph.hasEdge
    simp [edges_add_node]

theorem mem_nodes_add_node (G : Graph) (n x : String) :
    x ∈ (G.add_node n).nodes ↔ x ∈ G.nodes ∨ x = n := by
  unfold Graph.add_node
  split_ifs with h
  · simp only [List.contains, List.elem_eq_mem, decide_eq_true_eq] at h
    constructor
    · exact Or.inl
    · rintro (hx | rfl)
      · exact hx
      · exact h
  · simp

theorem nodup_nodes_add_node (G : Graph) (n : String) (h : G.nodes.Nodup) :
    (G.add_node n).nodes.Nodup := by
  unfold Graph.add_node
  split_ifs with hc
  · exact h
  · have hn : n ∉ G.nodes := by
      simpa [List.contains, List.elem_eq_mem] using hc
    simp [List.nodup_append, h, hn]

theorem add_node_of_mem (G : Graph) (n : String) (h : n ∈ G.nodes) :
    G.add_node n = G := by
  unfold Graph.add_node
  rw [if_pos]
  simp [List.contains, List.elem_eq_mem, h]

theorem nodes_add_edge_of_mem (G : Graph) (a b : String) (ha : a ∈ G.nodes)
    (hb : b ∈ G.nodes) : (G.add_edge a b).nodes = G.nodes := by
  simp only [Graph.add_edge, add_node_of_mem G a ha, add_node_of_mem G b hb]
  split_ifs <;> rfl

theorem nodes_inner_step {α : Type} [LinearOrder α]
    (tbl : List ((Nat × Nat) × α)) (thr : α) (i j : Nat) (n1 n2 : String)
    (G : Graph) (h1 : n1 ∈ G.nodes) (h2 : n2 ∈ G.nodes) :
    (inner_step tbl thr i j n1 n2 G).nodes = G.nodes := by
  unfold inner_step
  split_ifs with hij
  · rcases tbl.lookup (i, j) with _ | s
    · rfl
    · dsimp only
      split_ifs with hthr
      · exact nodes_add_edge_of_mem G n1 n2 h1 h2
      · rfl
  · rfl

theorem hasEdge_inner_step {α : Type} [LinearOrder α]
    (tbl : List ((Nat × Nat) × α)) (thr : α) (i j : Nat) (n1 n2 : String)
    (G : Graph) (x y : String) :
    (inner_step tbl thr i j n1 n2 G).hasEdge x y = true ↔
      G.hasEdge x y = true ∨
        (i ≠ j ∧ (∃ s, tbl.lookup (i, j) = some s ∧ thr < s)
          ∧ sameUEdge (n1, n2) (x, y) = true) := by
  unfold inner_step
  split_ifs with hij
  · rcases hlk : tbl.lookup (i, j) with _ | s
    · simp only [iff_self_or]
      rintro ⟨_, ⟨s', hs', _⟩, _⟩
      cases hs'
    · dsimp only
      split_ifs with hthr
      · rw [hasEdge_add_edge]
        simp only [Bool.or_eq_true]
        constructor
        · rintro (hx | hs)
          · exact Or.inl hx
          · exact Or.inr ⟨hij, ⟨s, rfl, hthr⟩, hs⟩
        · rintro (hx | ⟨_, _, hs⟩)
          · exact Or.inl hx
          · exact Or.inr hs
      · simp only [iff_self_or]
        rintro ⟨_, ⟨s', hs', hthr'⟩, _⟩
        cases hs'
        exact absurd hthr' hthr
  · simp only [iff_self_or]
    rintro ⟨hij', _, _⟩
    exact absurd hij' hij

theorem nodes_add_edges_inner {α : Type} [LinearOrder α]
    (tbl : List ((Nat × Nat) × α)) (thr : α) (i : Nat) (n1 : String)
    (l : List (Nat × Card)) (G : Graph) (h1 : n1 ∈ G.nodes)
    (hl : ∀ p ∈ l, p.2.name ∈ G.nodes) :
    (add_edges_inner tbl thr i n1 l G).nodes = G.nodes := by
  induction l generalizing G with
  | nil => rfl
  | cons p rest ih =>
    obtain ⟨j, c2⟩ := p
    simp only [add_edges_inner]
    have hstep := nodes_inner_step tbl thr i j n1 c2.name G h1
      (hl (j, c2) (by simp))
    rw [ih (inner_step tbl thr i j n1 c2.name G) (hstep ▸ h1)
      (fun q hq => hstep ▸ hl q (by simp [hq]))]
    exact hstep

theorem hasEdge_add_edges_inner {α : Type} [LinearOrder α]
    (tbl : List ((Nat × Nat) × α)) (thr : α) (i : Nat) (n1 : String)
    (l : List (Nat × Card)) (G : Graph) (x y : String) :
    (add_edges_inner tbl thr i n1 l G).hasEdge x y = true ↔
      G.hasEdge x y = true ∨
        ∃ p ∈ l, i ≠ p.1 ∧ (∃ s, tbl.lookup (i, p.1) = some s ∧ thr < s)
          ∧ sameUEdge (n1, p.2.name) (x, y) = true := by
  induction l generalizing G with
  | nil => simp [add_edges_inner]
  | cons p rest ih =>
    obtain ⟨j, c2⟩ := p
    simp only [add_edges_inner]
    rw [ih, hasEdge_inner_step]
    constructor
    · rintro ((hx | hp) | ⟨q, hq, hc⟩)
      · exact Or.inl hx
      · exact Or.inr ⟨(j, c2), by simp, hp⟩
      · exact Or.inr ⟨q, by simp [hq], hc⟩
    · rintro (hx | ⟨q, hq, hc⟩)
      · exact Or.inl (Or.inl hx)
      · rcases List.mem_cons.mp hq with rfl | hq'
        · exact Or.inl (Or.inr hc)
        · exact Or.inr ⟨q, hq', hc⟩

theorem nodes_add_edges_outer {α : Type} [LinearOrder α]
    (tbl : List ((Nat × Nat) × α)) (thr : α) (all_enum : List (Nat × Card))
    (l : List (Nat × Card)) (G : Graph)
    (hl : ∀ p ∈ l, p.2.name ∈ G.nodes)
    (ha : ∀ p ∈ all_enum, p.2.name ∈ G.nodes) :
    (add_edges_outer tbl thr all_enum l G).nodes = G.nodes := by
  induction l generalizing G with
  | nil => rfl
  | cons q rest ih =>
    obtain ⟨i, c1⟩ := q
    simp only [add_edges_outer]
    have hstep := nodes_add_edges_inner tbl thr i c1.name all_enum G
      (hl (i, c1) (by simp)) ha
    rw [ih (add_edges_inner tbl thr i c1.name all_enum G)
      (fun p hp => hstep ▸ hl p (by simp [hp]))
      (fun p hp => hstep ▸ ha p hp)]
    exact hstep

theorem hasEdge_add_edges_outer {α : Type} [LinearOrder α]
    (tbl : List ((Nat × Nat) × α)) (thr : α) (all_enum : List (Nat × Card))
    (l : List (Nat × Card)) (G : Graph) (x y : String) :
    (add_edges_outer tbl thr all_enum l G).hasEdge x y = true ↔
      G.hasEdge x y = true ∨
        ∃ q ∈ l, ∃ p ∈ all_enum, q.1 ≠ p.1
          ∧ (∃ s, tbl.lookup (q.1, p.1) = some s ∧ thr < s)
          ∧ sameUEdge (q.2.name, p.2.name) (x, y) = true := by
  induction l generalizing G with
  | nil => simp [add_edges_outer]
  | cons q rest ih =>
    obtain ⟨i, c1⟩ := q
    simp only [add_edges_outer]
    rw [ih, hasEdge_add_edges_inner]
    constructor
    · rintro ((hx | ⟨p, hp, hc⟩) | ⟨q', hq', hc⟩)
      · exact Or.inl hx
      · exact Or.inr ⟨(i, c1), by simp, p, hp, hc⟩
      · exact Or.inr ⟨q', by simp [hq'], hc⟩
    · rintro (hx | ⟨q', hq', p, hp, hc⟩)
      · exact Or.inl (Or.inl hx)
      · rcases List.mem_cons.mp hq' with rfl | hq''
        · exact Or.inl (Or.inr ⟨p, hp, hc⟩)
        · exact Or.inr ⟨q', hq'', p, hp, hc⟩

theorem edges_foldl_add_node (cards : List Card) (G : Graph) :
    (cards.foldl (fun G card => G.add_node card.name) G).edges = G.edges := by
  induction cards generalizing G with
  | nil => rfl
  | cons c rest ih => rw [List.foldl_cons, ih, edges_add_node]

theorem mem_nodes_foldl_add_node (cards : List Card) (G : Graph) (x : String) :
    x ∈ (cards.foldl (fun G card => G.add_node card.name) G).nodes ↔
      x ∈ G.nodes ∨ x ∈ cards.map Card.name := by
  induction cards generalizing G with
  | nil => simp
  | cons c rest ih =>
    rw [List.foldl_cons, ih, mem_nodes_add_node]
    simp only [List.map_cons, List.mem_cons]
    tauto

theorem nodup_nodes_foldl_add_node (cards : List Card) (G : Graph)
    (h : G.nodes.Nodup) :
    (cards.foldl (fun G card => G.add_node card.name) G).nodes.Nodup := by
  induction cards generalizing G with
  | nil => exact h
  | cons c rest ih =>
    rw [List.foldl_cons]
    exact ih _ (nodup_nodes_add_node G c.name h)

theorem hasEdge_graph_construction {α : Type} [LinearOrder α]
    (cards : List Card) (tbl : List ((Nat × Nat) × α)) (thr : α)
    (x y : String) :
    (graph_construction cards tbl thr).hasEdge x y = true ↔
      ∃ q ∈ cards.enum, ∃ p ∈ cards.enum, q.1 ≠ p.1
        ∧ (∃ s, tbl.lookup (q.1, p.1) = some s ∧ thr < s)
        ∧ sameUEdge (q.2.name, p.2.name) (x, y) = true := by
  unfold graph_construction
  rw [hasEdge_add_edges_outer]
  have hinit : (cards.foldl (fun G card => G.add_node card.name)
      Graph.empty).hasEdge x y = false := by
    unfold Graph.hasEdge
    rw [edges_foldl_add_node]
    rfl
  simp [hinit]

theorem edge_invariants_add_edge (G : Graph) (a b : String) (hab : a ≠ b)
    (h1 : ∀ e ∈ G.edges, e.1 ≠ e.2)
    (h2 : G.edges.Pairwise (fun e f => sameUEdge e f = false)) :
    (∀ e ∈ (G.add_edge a b).edges, e.1 ≠ e.2) ∧
    (G.add_edge a b).edges.Pairwise (fun e f => sameUEdge e f = false) := by
  simp only [Graph.add_edge]
  split_ifs with he
  · rw [show ((G.add_node a).add_node b).edges = G.edges from by
      rw [edges_add_node, edges_add_node]]
    exact ⟨h1, h2⟩
  · rw [show (Graph.mk ((G.add_node a).add_node b).nodes
        (((G.add_node a).add_node b).edges ++ [(a, b)])).edges
      = G.edges ++ [(a, b)] from by
        rw [show (Graph.mk _ _).edges = _ from rfl, edges_add_node, edges_add_node]]
    have hnot : ∀ e ∈ G.edges, sameUEdge e (a, b) = false := by
      rw [show ((G.add_node a).add_node b).hasEdge a b = G.hasEdge a b from by
        rw [hasEdge_add_node, hasEdge_add_node]] at he
      have := (Bool.not_eq_true _).mp he
      unfold Graph.hasEdge at this
      simpa using this
    constructor
    · intro e hee
      rcases List.mem_append.mp hee with h | h
      · exact h1 e h
      · simp only [List.mem_cons, List.not_mem_nil, or_false] at h
        subst h
        exact hab
    · rw [List.pairwise_append]
      exact ⟨h2, by simp, fun e hee f hf => by
        simp only [List.mem_cons, List.not_mem_nil, or_false] at hf
        subst hf
        exact hnot e hee⟩

theorem edge_invariants_inner_step {α : Type} [LinearOrder α]
    (tbl : List ((Nat × Nat) × α)) (thr : α) (i j : Nat) (n1 n2 : String)
    (G : Graph) (hn : i ≠ j → n1 ≠ n2)
    (h1 : ∀ e ∈ G.edges, e.1 ≠ e.2)
    (h2 : G.edges.Pairwise (fun e f => sameUEdge e f = false)) :
    (∀ e ∈ (inner_step tbl thr i j n1 n2 G).edges, e.1 ≠ e.2) ∧
    (inner_step tbl thr i j n1 n2 G).edges.Pairwise
      (fun e f => sameUEdge e f = false) := by
  unfold inner_step
  split_ifs with hij
  · rcases tbl.lookup (i, j) with _ | s
    · exact ⟨h1, h2⟩
    · dsimp only
      split_ifs with hthr
      · exact edge_invariants_add_edge G n1 n2 (hn hij) h1 h2
      · exact ⟨h1, h2⟩
  · exact ⟨h1, h2⟩

theorem edge_invariants_add_edges_inner {α : Type} [LinearOrder α]
    (tbl : List ((Nat × Nat) × α)) (thr : α) (i : Nat) (n1 : String)
    (l : List (Nat × Card)) (G : Graph)
    (hl : ∀ p ∈ l, i ≠ p.1 → n1 ≠ p.2.name)
    (h1 : ∀ e ∈ G.edges, e.1 ≠ e.2)
    (h2 : G.edges.Pairwise (fun e f => sameUEdge e f = false)) :
    (∀ e ∈ (add_edges_inner tbl thr i n1 l G).edges, e.1 ≠ e.2) ∧
    (add_edges_inner tbl thr i n1 l G).edges.Pairwise
      (fun e f => sameUEdge e f = false) := by
  induction l generalizing G with
  | nil => exact ⟨h1, h2⟩
  | cons p rest ih =>
    obtain ⟨j, c2⟩ := p
    simp only [add_edges_inner]
    obtain ⟨h1', h2'⟩ := edge_invariants_inner_step tbl thr i j n1 c2.name G
      (hl (j, c2) (by simp)) h1 h2
    exact ih _ (fun q hq => hl q (by simp [hq])) h1' h2'

theorem edge_invariants_add_edges_outer {α : Type} [LinearOrder α]
    (tbl : List ((Nat × Nat) × α)) (thr : α) (all_enum : List (Nat × Card))
    (l : List (Nat × Card)) (G : Graph)
    (hl : ∀ q ∈ l, ∀ p ∈ all_enum, q.1 ≠ p.1 → q.2.name ≠ p.2.name)
    (h1 : ∀ e ∈ G.edges, e.1 ≠ e.2)
    (h2 : G.edges.Pairwise (fun e f => sameUEdge e f = false)) :
    (∀ e ∈ (add_edges_outer tbl thr all_enum l G).edges, e.1 ≠ e.2) ∧
    (add_edges_outer tbl thr all_enum l G).edges.Pairwise
      (fun e f => sameUEdge e f = false) := by
  induction l generalizing G with
  | nil => exact ⟨h1, h2⟩
  | cons q rest ih =>
    obtain ⟨i, c1⟩ := q
    simp only [add_edges_outer]
    obtain ⟨h1', h2'⟩ := edge_invariants_add_edges_inner tbl thr i c1.name
      all_enum G (fun p hp => hl (i, c1) (by simp) p hp) h1 h2
    exact ih _ (fun q' hq' p hp => hl q' (by simp [hq']) p hp) h1' h2'

theorem name_ne_of_nodup {cards : List Card}
    (hnd : (cards.map Card.name).Nodup) {q p : Nat × Card}
    (hq : q ∈ cards.enum) (hp : p ∈ cards.enum) (hne : q.1 ≠ p.1) :
    q.2.name ≠ p.2.name := by
  obtain ⟨i, ci⟩ := q
  obtain ⟨j, cj⟩ := p
  rw [List.mk_mem_enum_iff_getElem?] at hq hp
  intro heq
  have h1 : (cards.map Card.name)[i]? = some ci.name := by
    rw [List.getElem?_map, hq]
    rfl
  have h2 : (cards.map Card.name)[j]? = some cj.name := by
    rw [List.getElem?_map, hp]
    rfl
  have hi : i < (cards.map Card.name).length :=
    List.getElem?_eq_some.mp h1 |>.choose
  exact hne (List.getElem?_inj hi hnd (by rw [h1, h2, heq]))

/-- C8: the graph built by `graph_construction` has exactly one node per
candidate name; for indices `i < j` into the candidate list it has an edge
between the names of candidates `i` and `j` iff the key `(i, j)` is stored
with a score strictly above the threshold; and it has no self loop and no
repeated undirected edge.  The hypotheses are the data-model invariants: the
candidate names are distinct (table keys are unique) and every stored score
key is an upper-triangle pair. -/
theorem c8_graph_construction_structure {α : Type} [LinearOrder α]
    (cards : List Card) (tbl : List ((Nat × Nat) × α)) (thr : α)
    (hnd : (cards.map Card.name).Nodup)
    (hkeys : ∀ e ∈ tbl, e.1.1 < e.1.2) :
    ((graph_construction cards tbl thr).nodes.Nodup
      ∧ (∀ x, x ∈ (graph_construction cards tbl thr).nodes
          ↔ x ∈ cards.map Card.name))
    ∧ (∀ (i j : Nat) (hi : i < cards.length) (hj : j < cards.length), i < j →
        ((graph_construction cards tbl thr).hasEdge
            (cards.get ⟨i, hi⟩).name (cards.get ⟨j, hj⟩).name = true
          ↔ ∃ s, tbl.lookup (i, j) = some s ∧ thr < s))
    ∧ (∀ e ∈ (graph_construction cards tbl thr).edges, e.1 ≠ e.2)
    ∧ (graph_construction cards tbl thr).edges.Pairwise
        (fun e f => sameUEdge e f = false) := by
  have hnames : ∀ p ∈ cards.enum, p.2.name ∈
      (cards.foldl (fun G card => G.add_node card.name) Graph.empty).nodes := by
    intro p hp
    rw [mem_nodes_foldl_add_node]
    refine Or.inr (List.mem_map.mpr ⟨p.2, ?_, rfl⟩)
    obtain ⟨i, c⟩ := p
    exact List.getElem?_mem (List.mk_mem_enum_iff_getElem?.mp hp)
  have hnodes : (graph_construction cards tbl thr).nodes =
      (cards.foldl (fun G card => G.add_node card.name) Graph.empty).nodes := by
    unfold graph_construction
    exact nodes_add_edges_outer tbl thr cards.enum cards.enum _ hnames hnames
  have hedges0 : (cards.foldl (fun G card => G.add_node card.name)
      Graph.empty).edges = [] := by
    rw [edges_foldl_add_node]
    rfl
  have hinv := edge_invariants_add_edges_outer tbl thr cards.enum cards.enum
    (cards.foldl (fun G card => G.add_node card.name) Graph.empty)
    (fun q hq p hp hne => name_ne_of_nodup hnd hq hp hne)
    (fun e he => absurd (hedges0 ▸ he) (List.not_mem_nil e))
    (hedges0 ▸ List.Pairwise.nil)
  refine ⟨⟨?_, ?_⟩, ?_, hinv.1, hinv.2⟩
  · rw [hnodes]
    exact nodup_nodes_foldl_add_node cards Graph.empty List.nodup_nil
  · intro x
    rw [hnodes, mem_nodes_foldl_add_node]
    simp [Graph.empty]
  · intro i j hi hj hij
    have henum_i : (i, cards.get ⟨i, hi⟩) ∈ cards.enum := by
      rw [List.mk_mem_enum_iff_getElem?]
      simp [List.getElem?_eq_getElem hi]
    have henum_j : (j, cards.get ⟨j, hj⟩) ∈ cards.enum := by
      rw [List.mk_mem_enum_iff_getElem?]
      simp [List.getElem?_eq_getElem hj]
    rw [hasEdge_graph_construction]
    constructor
    · rintro ⟨q, hq, p, hp, hne, ⟨s, hs, hthr⟩, hsame⟩
      simp only [sameUEdge, Bool.or_eq_true, Bool.and_eq_true,
        decide_eq_true_eq] at hsame
      rcases hsame with ⟨hq1, hp1⟩ | ⟨hq1, hp1⟩
      · have hqi : q.1 = i := by
          by_contra hne'
          exact name_ne_of_nodup hnd hq henum_i hne' hq1
        have hpj : p.1 = j := by
          by_contra hne'
          exact name_ne_of_nodup hnd hp henum_j hne' hp1
        rw [hqi, hpj] at hs
        exact ⟨s, hs, hthr⟩
      · have hqj : q.1 = j := by
          by_contra hne'
          exact name_ne_of_nodup hnd hq henum_j hne' hq1
        have hpi : p.1 = i := by
          by_contra hne'
          exact name_ne_of_nodup hnd hp henum_i hne' hp1
        rw [hqj, hpi] at hs
        obtain ⟨l1, l2, heq, -⟩ := List.lookup_eq_some_iff.mp hs
        have hmem : ((j, i), s) ∈ tbl := by
          rw [heq]
          simp
        have := hkeys _ hmem
        dsimp only at this
        omega
    · rintro ⟨s, hs, hthr⟩
      exact ⟨(i, cards.get ⟨i, hi⟩), henum_i, (j, cards.get ⟨j, hj⟩), henum_j,
        by omega, ⟨s, hs, hthr⟩, by simp [sameUEdge]⟩

/-- Witness for C8 on two candidates with one scored pair (scores over `ℕ`,
an instance of the generic linear order of the embedding). -/
theorem c8_witness :
    ((twoCards.map Card.name).Nodup)
    ∧ (∀ e ∈ [((0, 1), (5 : ℕ))], e.1.1 < e.1.2)
    ∧ (((graph_construction twoCards [((0, 1), (5 : ℕ))] 3).nodes.Nodup
        ∧ (∀ x, x ∈ (graph_construction twoCards [((0, 1), (5 : ℕ))] 3).nodes
            ↔ x ∈ twoCards.map Card.name))
      ∧ (∀ (i j : Nat) (hi : i < twoCards.length) (hj : j < twoCards.length),
          i < j →
          ((graph_construction twoCards [((0, 1), (5 : ℕ))] 3).hasEdge
              (twoCards.get ⟨i, hi⟩).name (twoCards.get ⟨j, hj⟩).name = true
            ↔ ∃ s, [((0, 1), (5 : ℕ))].lookup (i, j) = some s ∧ 3 < s))
      ∧ (∀ e ∈ (graph_construction twoCards [((0, 1), (5 : ℕ))] 3).edges,
          e.1 ≠ e.2)
      ∧ (graph_construction twoCards [((0, 1), (5 : ℕ))] 3).edges.Pairwise
          (fun e f => sameUEdge e f = false)) :=
  ⟨by decide, by decide,
   c8_graph_construction_structure twoCards [((0, 1), (5 : ℕ))] 3
     (by decide) (by decide)⟩

/-- C9: for a fixed candidate list and score table, the edge set of the graph
built at a higher threshold is contained in the edge set built at a lower
threshold, edge by edge. -/
theorem c9_threshold_monotone {α : Type} [LinearOrder α] (cards : List Card)
    (tbl : List ((Nat × Nat) × α)) (t1 t2 : α) (h12 : t1 ≤ t2)
    (x y : String)
    (h : (graph_construction cards tbl t2).hasEdge x y = true) :
    (graph_construction cards tbl t1).hasEdge x y = true := by
  rw [hasEdge_graph_construction] at h ⊢
  obtain ⟨q, hq, p, hp, hne, ⟨s, hs, hts⟩, hsame⟩ := h
  exact ⟨q, hq, p, hp, hne, ⟨s, hs, lt_of_le_of_lt h12 hts⟩, hsame⟩

/-- Witness for C9: the edge present at threshold 4 is also present at
threshold 3. -/
theorem c9_witness :
    ((3 : ℕ) ≤ 4)
    ∧ (graph_construction twoCards [((0, 1), (5 : ℕ))] 4).hasEdge ("a") ("b") = true
    ∧ (graph_construction twoCards [((0, 1), (5 : ℕ))] 3).hasEdge ("a") ("b") = true :=
  ⟨by decide, by decide,
   c9_threshold_monotone twoCards [((0, 1), (5 : ℕ))] 3 4 (by decide)
     ("a") ("b") (by decide)⟩

theorem lookup_eq_some_of_mem_nodup {l : List (String × Card)} {n : String}
    {c : Card} (hk : (l.map Prod.fst).Nodup) (hmem : (n, c) ∈ l) :
    l.lookup n = some c := by
  induction l with
  | nil => simp at hmem
  | cons p rest ih =>
    obtain ⟨k, v⟩ := p
    simp only [List.map_cons, List.nodup_cons] at hk
    rcases List.mem_cons.mp hmem with heq | hrest
    · obtain ⟨hn, hc⟩ := Prod.mk.injEq _ _ _ _ ▸ heq
      subst hn
      subst hc
      simp [List.lookup]
    · have hnk : n ≠ k := by
        intro he
        subst he
        exact hk.1 (List.mem_map.mpr ⟨(n, c), hrest, rfl⟩)
      rw [List.lookup_cons]
      rw [show (n == k) = false from beq_eq_false_iff_ne.mpr hnk]
      exact ih hk.2 hrest

theorem dp_loop_some (cd : List (String × Card)) (cc : List String) (tt : String)
    (l : List (String × Card)) (acc out : List Card)
    (h : data_prep_loop cd cc tt l acc = some out) :
    (∀ p ∈ l, (get_card_type cd p.1).isSome) ∧
    out = acc ++ (l.filter (fun p => dp_included cd cc tt p.1)).map Prod.snd := by
  induction l generalizing acc with
  | nil =>
    simp only [data_prep_loop, Option.some.injEq] at h
    exact ⟨by simp, by simp [h.symm]⟩
  | cons p rest ih =>
    obtain ⟨nm, card⟩ := p
    rcases hcol : get_card_color cd nm with _ | colors
    · simp [data_prep_loop, hcol] at h
    · rcases hty : get_card_type cd nm with _ | tys
      · simp [data_prep_loop, hcol, hty] at h
      · have hdpi : dp_included cd cc tt nm =
            ((if colors = ["Colorless"] then true
              else colors.all (fun color => cc.contains color)) &&
             (((tys.map strLower).contains tt
                 && (tys.map strLower).contains ("creature"))
               || basic_lands_names.contains nm
               || ((if colors = ["Colorless"] then true
                    else colors.all (fun color => cc.contains color))
                   && !((tys.map strLower).contains ("creature"))))) := by
          simp [dp_included, hcol, hty]
        simp only [data_prep_loop, hcol, hty] at h
        by_cases hc : ((if colors = ["Colorless"] then true
              else colors.all (fun color => cc.contains color)) &&
             (((tys.map strLower).contains tt
                 && (tys.map strLower).contains ("creature"))
               || basic_lands_names.contains nm
               || ((if colors = ["Colorless"] then true
                    else colors.all (fun color => cc.contains color))
                   && !((tys.map strLower).contains ("creature"))))) = true
        · rw [if_pos hc] at h
          obtain ⟨hdef, hout⟩ := ih (acc ++ [card]) h
          refine ⟨?_, ?_⟩
          · intro q hq
            rcases List.mem_cons.mp hq with rfl | hq'
            · simp [hty]
            · exact hdef q hq'
          · rw [hout, List.filter_cons_of_pos (by rw [hdpi]; exact hc)]
            simp
        · rw [if_neg hc] at h
          obtain ⟨hdef, hout⟩ := ih acc h
          refine ⟨?_, ?_⟩
          · intro q hq
            rcases List.mem_cons.mp hq with rfl | hq'
            · simp [hty]
            · exact hdef q hq'
          · rw [hout, List.filter_cons_of_neg (by rw [hdpi]; exact hc)]

theorem dp_included_iff (cd : List (String × Card)) (cc : List String)
    (t : String) (n : String) (c : Card)
    (hk : (cd.map Prod.fst).Nodup) (hmem : (n, c) ∈ cd) :
    dp_included cd cc t n = true ↔
      ((c.colors = ["Colorless"] ∨ ∀ col ∈ c.colors, col ∈ cc) ∧
       ∃ tys, parse_type_line c.type = some tys ∧
         ((t ∈ tys.map strLower ∧ ("creature" : String) ∈ tys.map strLower)
           ∨ n ∈ basic_lands_names
           ∨ ("creature" : String) ∉ tys.map strLower)) := by
  have hlk := lookup_eq_some_of_mem_nodup hk hmem
  have hcol : get_card_color cd n = some c.colors := by
    simp [get_card_color, hlk]
  have hty : get_card_type cd n = parse_type_line c.type := by
    simp [get_card_type, hlk]
  rcases hpt : parse_type_line c.type with _ | tys
  · rw [hpt] at hty
    simp [dp_included, hcol, hty]
  · rw [hpt] at hty
    simp only [dp_included, hcol, hty, Option.some.injEq]
    by_cases hcl : c.colors = ["Colorless"] <;>
      simp [hcl, List.contains, List.elem_iff, List.all_eq_true,
        -List.mem_map] <;>
      tauto

/-- C3 (amended): a card of the table appears in the output of
`data_preparation` if and only if (a) its colors are exactly `["Colorless"]`
or all among the commander colors, and (b) the lowered tribal type is among
ALL its lowered type components (main type and subtypes alike, not the
subtypes only) and "creature" is among those components, or its table key is a
basic land name, or "creature" is NOT among those components (rather than the
main type differing from "creature").  The difference to the claim matters
exactly when the tribal type or "creature" occurs as a component where the
claim does not look for it (see the counterexample). -/
theorem c3_data_preparation_membership
    (cd : List (String × Card)) (cc : List String) (tribal_type : String)
    (out : List Card) (n : String) (c : Card)
    (hk : (cd.map Prod.fst).Nodup)
    (hname : ∀ p ∈ cd, p.1 = strLower p.2.name)
    (hmem : (n, c) ∈ cd)
    (hdp : data_preparation cd cc tribal_type = some out) :
    c ∈ out ↔
      ((c.colors = ["Colorless"] ∨ ∀ col ∈ c.colors, col ∈ cc) ∧
       ∃ tys, parse_type_line c.type = some tys ∧
         ((strLower tribal_type ∈ tys.map strLower
             ∧ ("creature" : String) ∈ tys.map strLower)
           ∨ n ∈ basic_lands_names
           ∨ ("creature" : String) ∉ tys.map strLower)) := by
  obtain ⟨hdef, hout⟩ :=
    dp_loop_some cd cc (strLower tribal_type) cd [] out
      (by simpa [data_preparation] using hdp)
  rw [← dp_included_iff cd cc (strLower tribal_type) n c hk hmem]
  subst hout
  simp only [List.nil_append, List.mem_map, List.mem_filter]
  constructor
  · rintro ⟨⟨n', c'⟩, ⟨hmem', hinc⟩, rfl⟩
    have h1 := hname _ hmem'
    have h2 := hname _ hmem
    dsimp only at h1 h2 hinc
    rwa [show n' = n from h1.trans h2.symm] at hinc
  · intro hinc
    exact ⟨(n, c), ⟨hmem, hinc⟩, rfl⟩

/-- Counterexample for C3: with tribal type "creature", the table entry
`("x", cardPlainCreature)` of type line "Creature" is included by the code
(the tribal check searches the whole type list, which contains "creature"),
while the claim's condition (b) rejects it: its subtypes do not contain the
tribal type, its main type is "creature", and it is no basic land. -/
theorem c3_counterexample :
    data_preparation [("x", cardPlainCreature)] ["W"] ("creature")
      = some [cardPlainCreature]
    ∧ ¬ spec_included_C3 ["W"] ("creature") ("x") cardPlainCreature := by
  constructor
  · decide
  · decide

/-- Witness for C3 on a one-entry table. -/
theorem c3_witness :
    (([("x", cardPlainCreature)].map Prod.fst).Nodup)
    ∧ (∀ p ∈ [("x", cardPlainCreature)], p.1 = strLower p.2.name)
    ∧ (("x", cardPlainCreature) ∈ [("x", cardPlainCreature)])
    ∧ (cardPlainCreature ∈ [cardPlainCreature] ↔
        ((cardPlainCreature.colors = ["Colorless"]
            ∨ ∀ col ∈ cardPlainCreature.colors, col ∈ ["W"]) ∧
         ∃ tys, parse_type_line cardPlainCreature.type = some tys ∧
           ((strLower ("creature") ∈ tys.map strLower
               ∧ ("creature" : String) ∈ tys.map strLower)
             ∨ ("x" : String) ∈ basic_lands_names
             ∨ ("creature" : String) ∉ tys.map strLower))) :=
  ⟨by decide, by decide, by decide,
   c3_data_preparation_membership [("x", cardPlainCreature)] ["W"] ("creature")
     [cardPlainCreature] ("x") cardPlainCreature (by decide) (by decide)
     (by decide) (by decide)⟩

/-! Helper lemmas about the similarity scorer. -/

theorem list_sum_map_succ_eq (l : List Nat) (f g : Nat → Nat)
    (h : ∀ i ∈ l, f i = g i + 1) :
    (l.map f).sum = (l.map g).sum + l.length := by
  induction l with
  | nil => rfl
  | cons a as ih =>
    simp only [List.map_cons, List.sum_cons, List.length_cons]
    rw [h a (by simp), ih (fun i hi => h i (by simp [hi]))]
    omega

theorem scoreKeys_sum (n : Nat) :
    2 * ((List.range n).map (fun i => n - (i + 1))).sum = n * (n - 1) := by
  induction n with
  | zero => rfl
  | succ n ih =>
    rw [List.range_succ]
    simp only [List.map_append, List.map_cons, List.map_nil, List.sum_append,
      List.sum_cons, List.sum_nil]
    have hT : ((List.range n).map (fun i => n + 1 - (i + 1))).sum
        = ((List.range n).map (fun i => n - (i + 1))).sum + n := by
      have := list_sum_map_succ_eq (List.range n)
        (fun i => n + 1 - (i + 1)) (fun i => n - (i + 1))
        (fun i hi => by
          rw [List.mem_range] at hi
          dsimp only
          omega)
      rwa [List.length_range] at this
    rw [hT]
    rcases n with _ | m
    · rfl
    · simp only [Nat.add_sub_cancel] at ih ⊢
      rw [show (m + 1 + 1) * (m + 1) = (m + 1) * m + 2 * (m + 1) from by ring]
      omega

theorem scoreKeys_length (n : Nat) :
    (scoreKeys n).length = n * (n - 1) / 2 := by
  have hlen : (scoreKeys n).length
      = ((List.range n).map (fun i => n - (i + 1))).sum := by
    unfold scoreKeys
    rw [List.flatMap_def, List.length_flatten, List.map_map]
    congr 1
    refine List.map_congr_left (fun i _ => ?_)
    simp [List.length_range']
  have := scoreKeys_sum n
  omega

theorem scoreKeys_mem (n i j : Nat) :
    (i, j) ∈ scoreKeys n ↔ i < j ∧ j < n := by
  unfold scoreKeys
  rw [List.mem_flatMap]
  constructor
  · rintro ⟨a, ha, hmem⟩
    rw [List.mem_map] at hmem
    obtain ⟨b, hb, heq⟩ := hmem
    obtain ⟨rfl, rfl⟩ := Prod.mk.injEq _ _ _ _ ▸ heq
    rw [List.mem_range] at ha
    rw [List.mem_range'] at hb
    obtain ⟨k, hk, rfl⟩ := hb
    omega
  · rintro ⟨hij, hjn⟩
    refine ⟨i, by rw [List.mem_range]; omega, ?_⟩
    rw [List.mem_map]
    refine ⟨j, ?_, rfl⟩
    rw [List.mem_range']
    exact ⟨j - (i + 1), by omega, by omega⟩

theorem docFreq_le_length (texts : List String) (t : String) :
    docFreq texts t ≤ texts.length :=
  List.length_filter_le _ _

theorem idf_pos (texts : List String) (t : String) : 0 < idf texts t := by
  unfold idf
  have hd : (0 : ℝ) < 1 + (docFreq texts t : ℝ) := by positivity
  have h1 : (1 : ℝ) ≤ (1 + texts.length) / (1 + docFreq texts t) := by
    rw [le_div_iff₀ hd]
    have := docFreq_le_length texts t
    have hcast : (docFreq texts t : ℝ) ≤ (texts.length : ℝ) := by
      exact_mod_cast this
    linarith
  have := Real.log_nonneg h1
  linarith

theorem tfidfEntry_nonneg (texts : List String) (d t : String) :
    0 ≤ tfidfEntry texts d t :=
  mul_nonneg (Nat.cast_nonneg _) (le_of_lt (idf_pos texts t))

theorem rawDot_nonneg (texts : List String) (d1 d2 : String) :
    0 ≤ rawDot texts d1 d2 :=
  Finset.sum_nonneg fun t _ =>
    mul_nonneg (tfidfEntry_nonneg texts d1 t) (tfidfEntry_nonneg texts d2 t)

theorem simDocs_nonneg (texts : List String) (d1 d2 : String) :
    0 ≤ simDocs texts d1 d2 := by
  unfold simDocs
  split_ifs with h
  · exact le_refl 0
  · exact div_nonneg (rawDot_nonneg texts d1 d2)
      (mul_nonneg (Real.sqrt_nonneg _) (Real.sqrt_nonneg _))

theorem simDocs_le_one (texts : List String) (d1 d2 : String) :
    simDocs texts d1 d2 ≤ 1 := by
  unfold simDocs
  split_ifs with h
  · norm_num
  · push_neg at h
    have h11 : 0 < rawDot texts d1 d1 :=
      lt_of_le_of_ne (rawDot_nonneg texts d1 d1) (Ne.symm h.1)
    have h22 : 0 < rawDot texts d2 d2 :=
      lt_of_le_of_ne (rawDot_nonneg texts d2 d2) (Ne.symm h.2)
    rw [div_le_one (mul_pos (Real.sqrt_pos.mpr h11) (Real.sqrt_pos.mpr h22))]
    have e1 : rawDot texts d1 d1
        = ∑ t ∈ (vocabulary texts).toFinset, (tfidfEntry texts d1 t) ^ 2 := by
      unfold rawDot
      exact Finset.sum_congr rfl fun t _ => (pow_two _).symm
    have e2 : rawDot texts d2 d2
        = ∑ t ∈ (vocabulary texts).toFinset, (tfidfEntry texts d2 t) ^ 2 := by
      unfold rawDot
      exact Finset.sum_congr rfl fun t _ => (pow_two _).symm
    rw [e1, e2]
    exact Real.sum_mul_le_sqrt_mul_sqrt _ _ _

theorem simAt_nonneg (texts : List String) (i j : Nat) : 0 ≤ simAt texts i j :=
  simDocs_nonneg _ _ _

theorem simAt_le_one (texts : List String) (i j : Nat) : simAt texts i j ≤ 1 :=
  simDocs_le_one _ _ _

theorem similarity_calculation_eq (valid_cards : List Card)
    (tbl : List ((Nat × Nat) × ℝ))
    (h : similarity_calculation valid_cards = some tbl) :
    tbl = (scoreKeys (build_texts valid_cards).length).map
      (fun ij => (ij, simAt (build_texts valid_cards) ij.1 ij.2)) := by
  simp only [similarity_calculation] at h
  rcases hv : (vocabulary (build_texts valid_cards)).isEmpty with _ | _
  · rw [hv] at h
    exact (Option.some.injEq _ _ ▸ h).symm
  · rw [hv] at h
    cases h

theorem build_texts_length (l : List Card) :
    (build_texts l).length = l.countP (fun c => c.text.isSome) := by
  induction l with
  | nil => rfl
  | cons c rest ih =>
    rcases hc : c.text with _ | t <;>
      simp [build_texts, hc, ih, List.countP_cons]

theorem build_texts_eq (l : List Card) :
    build_texts l = (l.filter (fun c => c.text.isSome)).map docOfCard := by
  induction l with
  | nil => rfl
  | cons c rest ih =>
    rcases hc : c.text with _ | t
    · simp [build_texts, hc, ih, List.filter_cons]
    · simp only [build_texts, hc, ih, List.filter_cons, Option.isSome_some,
        if_pos, List.map_cons]
      rw [show docOfCard c = mkDoc c t from by simp [docOfCard, hc]]

theorem option_eq_some_getD {A : Type} (o : Option A) (d : A)
    (h : o.isSome = true) : o = some (o.getD d) := by
  cases o
  · cases h
  · rfl

/-- C5 (amended): a candidate set of size 0 makes `TfidfVectorizer.fit_transform`
raise `ValueError` ("empty vocabulary"), modelled as `none` — the claim's
"does not raise an error" fails there; a candidate set of size 1 whose
document produces at least one token yields the empty similarity table
without error. -/
theorem c5_small_candidate_sets :
    similarity_calculation [] = none
    ∧ ∀ c : Card, vocabulary (build_texts [c]) ≠ [] →
        similarity_calculation [c] = some [] := by
  refine ⟨rfl, fun c hv => ?_⟩
  have hne : (vocabulary (build_texts [c])).isEmpty = false := by
    simpa [List.isEmpty_iff] using hv
  simp only [similarity_calculation, hne]
  rcases hc : c.text with _ | t
  · exfalso
    apply hv
    simp [build_texts, hc, vocabulary]
  · simp only [build_texts, hc]
    rw [show ([mkDoc c t] : List String).length = 1 from rfl]
    rw [show scoreKeys 1 = [] from rfl]
    rfl

/-- Counterexample for C5: on the empty candidate set the scorer does not
return an empty table — scikit-learn raises the empty-vocabulary `ValueError`,
modelled as `none`. -/
theorem c5_counterexample : similarity_calculation [] = none := rfl

/-- Witness for C5 at a singleton candidate whose text produces tokens. -/
theorem c5_witness :
    vocabulary (build_texts [textCard ("a") ("Flying")]) ≠ []
    ∧ similarity_calculation [textCard ("a") ("Flying")] = some [] :=
  ⟨by decide, c5_small_candidate_sets.2 (textCard ("a") ("Flying")) (by decide)⟩

/-- C7: a returned similarity table has exactly `n * (n - 1) / 2` entries,
where `n` counts the candidates whose `text` field is present (those
contribute a document); every key is a pair `(i, j)` with `i < j`, so the
mirrored pair `(j, i)` is never stored; and every value is a cosine of
nonnegatively-weighted TF-IDF rows, hence lies in `[0, 1]`. -/
theorem c7_similarity_table (valid_cards : List Card)
    (tbl : List ((Nat × Nat) × ℝ))
    (h : similarity_calculation valid_cards = some tbl) :
    tbl.length = (valid_cards.countP (fun c => c.text.isSome))
        * (valid_cards.countP (fun c => c.text.isSome) - 1) / 2
    ∧ (∀ e ∈ tbl, e.1.1 < e.1.2)
    ∧ (∀ e ∈ tbl, (0 : ℝ) ≤ e.2 ∧ e.2 ≤ 1) := by
  rw [similarity_calculation_eq _ _ h]
  refine ⟨?_, ?_, ?_⟩
  · rw [List.length_map, scoreKeys_length, build_texts_length]
  · intro e he
    rw [List.mem_map] at he
    obtain ⟨⟨i, j⟩, hij, rfl⟩ := he
    exact ((scoreKeys_mem _ i j).mp hij).1
  · intro e he
    rw [List.mem_map] at he
    obtain ⟨⟨i, j⟩, hij, rfl⟩ := he
    exact ⟨simAt_nonneg _ i j, simAt_le_one _ i j⟩

/-- Witness for C7 on two text-bearing candidates. -/
theorem c7_witness :
    similarity_calculation c7cards = some c7tbl
    ∧ (c7tbl.length = (c7cards.countP (fun c => c.text.isSome))
          * (c7cards.countP (fun c => c.text.isSome) - 1) / 2
      ∧ (∀ e ∈ c7tbl, e.1.1 < e.1.2)
      ∧ (∀ e ∈ c7tbl, (0 : ℝ) ≤ e.2 ∧ e.2 ≤ 1)) :=
  have h : similarity_calculation c7cards = some c7tbl :=
    option_eq_some_getD _ [] (by rfl)
  ⟨h, c7_similarity_table c7cards c7tbl h⟩

theorem lookup_map_key {A B : Type} [BEq A] [LawfulBEq A] (l : List A)
    (f : A → B) (k : A) (hk : k ∈ l) :
    (l.map (fun a => (a, f a))).lookup k = some (f k) := by
  induction l with
  | nil => cases hk
  | cons a as ih =>
    rw [List.map_cons, List.lookup_cons]
    by_cases hak : k = a
    · subst hak
      simp
    · rw [show (k == a) = false from beq_eq_false_iff_ne.mpr hak]
      exact ih (by
        rcases List.mem_cons.mp hk with rfl | h
        · exact absurd rfl hak
        · exact h)

theorem getD_map_docOfCard (l : List Card) (i : Nat) (d : Card)
    (h : i < l.length) :
    (l.map docOfCard).getD i ("") = docOfCard (l.getD i d) := by
  rw [List.getD_eq_getElem?_getD, List.getD_eq_getElem?_getD,
    List.getElem?_map, List.getElem?_eq_getElem h]
  rfl

/-- C4: the composed pipeline misaligns score indices with candidate indices.
For a candidate list starting with a card that has no rules text but with at
least two text-bearing cards, the score stored under key `(0, 1)` is computed
from the documents of the first two TEXT-BEARING cards (the filtered
sub-list), while `graph_construction` attaches any edge for key `(0, 1)` to
the names of the first two cards of the FULL list — and the first full-list
card is one of neither document's cards. -/
theorem c4_index_misalignment
    (cards : List Card) (tbl : List ((Nat × Nat) × ℝ)) (thr : ℝ)
    (c0 : Card) (rest : List Card) (hc : cards = c0 :: rest)
    (h0 : c0.text = none)
    (hnd : (cards.map Card.name).Nodup)
    (hsc : similarity_calculation cards = some tbl)
    (h2 : 2 ≤ (cards.filter (fun c => c.text.isSome)).length) :
    tbl.lookup (0, 1) = some (simAt (build_texts cards) 0 1)
    ∧ (build_texts cards).getD 0 ("")
        = docOfCard ((cards.filter (fun c => c.text.isSome)).getD 0 c0)
    ∧ (build_texts cards).getD 1 ("")
        = docOfCard ((cards.filter (fun c => c.text.isSome)).getD 1 c0)
    ∧ (∀ s, tbl.lookup (0, 1) = some s → thr < s →
        (graph_construction cards tbl thr).hasEdge c0.name
          ((cards.getD 1 c0).name) = true)
    ∧ c0.name ≠ ((cards.filter (fun c => c.text.isSome)).getD 0 c0).name
    ∧ c0.name ≠ ((cards.filter (fun c => c.text.isSome)).getD 1 c0).name := by
  have hn : 2 ≤ (build_texts cards).length := by
    rw [build_texts_eq, List.length_map]
    exact h2
  have hlen : 2 ≤ cards.length := le_trans h2 (List.length_filter_le _ _)
  have hmemf : ∀ i, i < 2 →
      (cards.filter (fun c => c.text.isSome)).getD i c0
        ∈ cards.filter (fun c => c.text.isSome) := by
    intro i hi
    rw [List.getD_eq_getElem?_getD,
      List.getElem?_eq_getElem (show i < _ by omega)]
    exact List.getElem_mem _
  have hname_ne : ∀ i, i < 2 →
      c0.name ≠ ((cards.filter (fun c => c.text.isSome)).getD i c0).name := by
    intro i hi heq
    obtain ⟨hmemc, hsome⟩ := List.mem_filter.mp (hmemf i hi)
    have hc0 : c0 ∈ cards := by
      rw [hc]
      exact List.mem_cons_self _ _
    have := List.inj_on_of_nodup_map hnd hc0 hmemc heq
    rw [← this, h0] at hsome
    cases hsome
  refine ⟨?_, ?_, ?_, ?_, hname_ne 0 (by omega), hname_ne 1 (by omega)⟩
  · rw [similarity_calculation_eq _ _ hsc]
    exact lookup_map_key _ _ (0, 1)
      ((scoreKeys_mem _ 0 1).mpr ⟨by omega, by omega⟩)
  · rw [build_texts_eq]
    exact getD_map_docOfCard _ 0 c0 (by omega)
  · rw [build_texts_eq]
    exact getD_map_docOfCard _ 1 c0 (by omega)
  · intro s hs hthr
    rw [hasEdge_graph_construction]
    refine ⟨(0, c0), ?_, (1, cards.getD 1 c0), ?_, by omega,
      ⟨s, hs, hthr⟩, by simp [sameUEdge]⟩
    · rw [List.mk_mem_enum_iff_getElem?, hc]
      simp
    · rw [List.mk_mem_enum_iff_getElem?,
        List.getElem?_eq_getElem (show 1 < cards.length by omega),
        List.getD_eq_getElem?_getD,
        List.getElem?_eq_getElem (show 1 < cards.length by omega)]
      rfl

/-- Witness for C4: a three-card candidate list whose first card has no text. -/
theorem c4_witness :
    (c4cards = mkCard ("x") ("Creature")
        :: [textCard ("a") ("Flying"), textCard ("b") ("Trample")])
    ∧ (mkCard ("x") ("Creature")).text = none
    ∧ (c4cards.map Card.name).Nodup
    ∧ similarity_calculation c4cards = some c4tbl
    ∧ 2 ≤ (c4cards.filter (fun c => c.text.isSome)).length
    ∧ (c4tbl.lookup (0, 1) = some (simAt (build_texts c4cards) 0 1)
      ∧ (build_texts c4cards).getD 0 ("")
          = docOfCard ((c4cards.filter (fun c => c.text.isSome)).getD 0
              (mkCard ("x") ("Creature")))
      ∧ (build_texts c4cards).getD 1 ("")
          = docOfCard ((c4cards.filter (fun c => c.text.isSome)).getD 1
              (mkCard ("x") ("Creature")))
      ∧ (∀ s, c4tbl.lookup (0, 1) = some s → (0 : ℝ) < s →
          (graph_construction c4cards c4tbl (0 : ℝ)).hasEdge
            (mkCard ("x") ("Creature")).name
            ((c4cards.getD 1 (mkCard ("x") ("Creature"))).name) = true)
      ∧ (mkCard ("x") ("Creature")).name
          ≠ ((c4cards.filter (fun c => c.text.isSome)).getD 0
              (mkCard ("x") ("Creature"))).name
      ∧ (mkCard ("x") ("Creature")).name
          ≠ ((c4cards.filter (fun c => c.text.isSome)).getD 1
              (mkCard ("x") ("Creature"))).name) :=
  have hsc : similarity_calculation c4cards = some c4tbl :=
    option_eq_some_getD _ [] (by rfl)
  ⟨rfl, rfl, by decide, hsc, by decide,
   c4_index_misalignment c4cards c4tbl (0 : ℝ) (mkCard ("x") ("Creature"))
     [textCard ("a") ("Flying"), textCard ("b") ("Trample")] rfl rfl
     (by decide) hsc (by decide)⟩
